import Mathlib

/-!
# Verification of the thriftrw-go compile/link core and typedef generator

A shallow embedding of the `compile` package's service compiler and linker
(the implementation is exercised by `service_test.go`; the compiler/linker
bodies themselves are modelled from the specification, as recorded on each
definition), together with the `gen` package's `typedefGenerator.Reader`
(from `gen/typedef.go`).

Go pointers to compiled Specs stored in a Scope are modelled as opaque
numeric handles (`Nat`); "the same Spec instance" is "the same handle".
Go's `map[string]K` values (`FieldGroup`, a service's `Functions` mapping,
the `Scope`) are modelled as canonical association lists kept sorted by
key, so that Lean equality of the model coincides with Go map equality
(`reflect.DeepEqual`), which ignores insertion order.
-/

namespace ThriftRW

/-- A key-ordered association-list lookup: the Go `m[k]` map read. -/
def lookupKey {α : Type} (n : String) : List (String × α) → Option α
  | [] => none
  | (k, v) :: rest => if n = k then some v else lookupKey n rest

/-- Lexicographic strict order on character lists (by code point). -/
def charsLt : List Char → List Char → Bool
  | [], [] => false
  | [], _ :: _ => true
  | _ :: _, [] => false
  | c :: cs, d :: ds =>
    if c.toNat < d.toNat then true
    else if d.toNat < c.toNat then false
    else charsLt cs ds

/-- Lexicographic strict order on strings; total on distinct strings, it
fixes the canonical entry order of the modelled Go maps. -/
def strLt (a b : String) : Bool := charsLt a.data b.data

/-- Insert a binding into a key-sorted association list, keeping it sorted.
This is the canonical-form model of a Go map write `m[k] = v`. -/
def insertSorted {α : Type} (name : String) (v : α) : List (String × α) → List (String × α)
  | [] => [(name, v)]
  | (k, w) :: rest =>
    if strLt name k then (name, v) :: (k, w) :: rest
    else (k, w) :: insertSorted name v rest

/-! ## Syntax tree (input contract, spec section 6)

The parser is external; a `Definition` tree carries names, ordered
field/function lists, optional numeric ids, optional default values and
source-line provenance. -/

/-- A parsed type reference: primitive, container, or by-name. -/
inductive ASTType where
  | TBool | TI8 | TI16 | TI32 | TI64 | TDouble | TString | TBinary
  | TMap (k v : ASTType)
  | TList (v : ASTType)
  | TSet (v : ASTType)
  | TNamed (name : String)
deriving Repr, DecidableEq

/-- A parsed field (struct field, function argument, or throws entry):
optional numeric id, name, type reference, optional default value
(modelled as an opaque string), and source line. -/
structure ASTField where
  ID : Option Int
  Name : String
  Typ : ASTType
  Default : Option String
  Line : Nat
deriving Repr, DecidableEq

/-- A parsed function: name, ordered argument list, optional return type
(`none` for `void`), optional throws list (`none` when the clause is
absent), and source line. -/
structure ASTFunction where
  Name : String
  Parameters : List ASTField
  ReturnType : Option ASTType
  Exceptions : Option (List ASTField)
  Line : Nat
deriving Repr, DecidableEq

/-- A parsed service: name, optional `extends` parent name, ordered
function list, source line. -/
structure ASTService where
  Name : String
  Parent : Option String
  Functions : List ASTFunction
  Line : Nat
deriving Repr, DecidableEq

/-! ## Compiled specs (spec section 3) -/

/-- A cross-definition reference, tagged `Unresolved(name)` before
linking and `Resolved(handle)` after (spec section 9); a handle is the
identity of a compiled Spec held by the session/scope. -/
inductive SpecRef where
  | Unresolved (name : String)
  | Resolved (h : Nat)
deriving Repr, DecidableEq

/-- A compiled type: primitive specs (`StringSpec`, `BinarySpec`, ...),
container specs (`MapSpec`/`ListSpec`/`SetSpec`), or a reference to
another compiled definition. -/
inductive TypeSpec where
  | BoolSpec | I8Spec | I16Spec | I32Spec | I64Spec | DoubleSpec | StringSpec | BinarySpec
  | MapSpec (KeySpec ValueSpec : TypeSpec)
  | ListSpec (ValueSpec : TypeSpec)
  | SetSpec (ValueSpec : TypeSpec)
  | DefRef (r : SpecRef)
deriving Repr, DecidableEq

/-- A compiled field: resolved numeric id, name, type, optional default.
(`Typ` models the Go field named `Type`, which is not a legal Lean
identifier.) -/
structure FieldSpec where
  ID : Int
  Name : String
  Typ : TypeSpec
  Default : Option String
deriving Repr, DecidableEq

/-- `FieldGroup`: the Go `map[string]*FieldSpec` (see the composite
literals in `service_test.go`), as a canonical key-sorted association
list. -/
abbrev FieldGroup := List (String × FieldSpec)

/-- `ResultSpec`: optional return type plus the exception `FieldGroup`. -/
structure ResultSpec where
  ReturnType : Option TypeSpec
  Exceptions : FieldGroup
deriving Repr, DecidableEq

/-- `FunctionSpec`: name, argument `FieldGroup`, optional `ResultSpec`
(absent for a `void` function with no `throws` clause, as in
`service_test.go`). -/
structure FunctionSpec where
  Name : String
  ArgsSpec : FieldGroup
  Result : Option ResultSpec
deriving Repr, DecidableEq

/-- `ServiceSpec`: name, optional parent reference, the `Functions`
mapping (Go `map[string]*FunctionSpec`, canonical key-sorted), and the
unexported already-`linked` marker (spec section 4.2). -/
structure ServiceSpec where
  Name : String
  Parent : Option SpecRef
  Functions : List (String × FunctionSpec)
  linked : Bool
deriving Repr, DecidableEq

/-- `Scope`: the name-to-Spec registry; values are handles (identities)
of compiled Specs. -/
abbrev Scope := List (String × Nat)

/-! ## Error taxonomy (spec section 7) -/

/-- Compile-time errors: duplicate name (with the first occurrence's
line), illegal default on an exception field, a field-id collision, and
the wrapping error naming the owning definition. -/
inductive CompileError where
  | DuplicateNameError (name : String) (line : Nat)
  | IllegalDefaultValueError (fieldName : String)
  | FieldIDConflict (id : Int) (name : String)
  | WrappedError (owner : String) (inner : CompileError)
deriving Repr, DecidableEq

/-- The rendered error messages (spec section 6 error-message contract). -/
def CompileError.message : CompileError → String
  | .DuplicateNameError n l =>
      "the name \"" ++ n ++ "\" has already been used on line " ++ toString l
  | .IllegalDefaultValueError n =>
      ("field \"" ++ n ++ "\"") ++ " cannot have a default value"
  | .FieldIDConflict i n =>
      ("field \"" ++ n ++ "\"") ++ (" reuses the field id " ++ toString i)
  | .WrappedError owner inner =>
      ("cannot compile \"" ++ owner ++ "\"") ++ (": " ++ inner.message)

/-- Link-time errors: an unresolved reference (spec section 7). -/
inductive LinkError where
  | UnresolvedReferenceError (name : String)
deriving Repr, DecidableEq

/-- The rendered link error message. -/
def LinkError.message : LinkError → String
  | .UnresolvedReferenceError n => n ++ " is not defined"

/-! ## Compiler (spec section 4.1)

Modelled from the spec: the `compile` package's compiler bodies
(`compileService` and its field-group builder) are not under `src/`;
only `service_test.go` is. The definitions below follow spec section
4.1 (the shared uniqueness-checking field-group builder, verbatim
explicit ids with deterministic assignment for omitted ones, the
exception-list default prohibition, first-error propagation, and the
wrapping of nested-list failures with the owning function's name) and
are validated against every scenario of `TestCompileService` and
`TestCompileServiceFailure`. -/

/-- Compile a type reference; by-name references stay `Unresolved`. -/
def compileType : ASTType → TypeSpec
  | .TBool => .BoolSpec
  | .TI8 => .I8Spec
  | .TI16 => .I16Spec
  | .TI32 => .I32Spec
  | .TI64 => .I64Spec
  | .TDouble => .DoubleSpec
  | .TString => .StringSpec
  | .TBinary => .BinarySpec
  | .TMap k v => .MapSpec (compileType k) (compileType v)
  | .TList v => .ListSpec (compileType v)
  | .TSet v => .SetSpec (compileType v)
  | .TNamed n => .DefRef (.Unresolved n)

/-- The effective field id at 0-based position `pos`: an explicit id is
used verbatim; an omitted one is assigned deterministically by
declaration order (the negative ids `-1, -2, ...`). -/
def effID (pos : Nat) (f : ASTField) : Int :=
  f.ID.getD (-((pos : Int) + 1))

/-- The compiled field produced for `f` at position `pos`. -/
def mkFieldSpec (pos : Nat) (f : ASTField) : FieldSpec :=
  { ID := effID pos f, Name := f.Name, Typ := compileType f.Typ, Default := f.Default }

/-- Modelled from the spec: the shared uniqueness-checking field-group
builder (spec section 4.1), processing fields in declaration order.
For each field it first rejects a default value when the group is an
exception list, then a name already used in the group (reporting the
first occurrence's line), then a reused effective field id; otherwise
it adds the compiled field to the group.  `seenN` maps names already
used to their lines, `seenI` collects ids already used, `acc` is the
group built so far. -/
def compileFieldsAux (isExc : Bool) :
    List ASTField → Nat → List (String × Nat) → List Int → FieldGroup →
    Except CompileError FieldGroup
  | [], _, _, _, acc => .ok acc
  | f :: rest, pos, seenN, seenI, acc =>
    if isExc ∧ f.Default.isSome then
      .error (.IllegalDefaultValueError f.Name)
    else
      match lookupKey f.Name seenN with
      | some l0 => .error (.DuplicateNameError f.Name l0)
      | none =>
        if effID pos f ∈ seenI then
          .error (.FieldIDConflict (effID pos f) f.Name)
        else
          compileFieldsAux isExc rest (pos + 1) ((f.Name, f.Line) :: seenN)
            (effID pos f :: seenI) (insertSorted f.Name (mkFieldSpec pos f) acc)

/-- Compile one argument or throws list into a `FieldGroup`. -/
def compileFields (isExc : Bool) (fields : List ASTField) : Except CompileError FieldGroup :=
  compileFieldsAux isExc fields 0 [] [] []

/-- Modelled from the spec: compile one function — its argument list,
then (when a return type or a throws clause is present) its
`ResultSpec`, whose throws list is built as an exception group. -/
def compileFunction (f : ASTFunction) : Except CompileError FunctionSpec :=
  match compileFields false f.Parameters with
  | .error e => .error e
  | .ok args =>
    match f.ReturnType, f.Exceptions with
    | none, none => .ok { Name := f.Name, ArgsSpec := args, Result := none }
    | rt, exns =>
      match compileFields true (exns.getD []) with
      | .error e => .error e
      | .ok exg =>
        .ok { Name := f.Name, ArgsSpec := args,
              Result := some { ReturnType := rt.map compileType, Exceptions := exg } }

/-- Modelled from the spec: compile the service's functions in
declaration order: a function name already used in this service body is
a `DuplicateNameError` carrying the first occurrence's line; a failure
inside a function's own lists is wrapped with that function's name
(`cannot compile "<owner>"`). -/
def compileServiceAux :
    List ASTFunction → List (String × Nat) → List (String × FunctionSpec) →
    Except CompileError (List (String × FunctionSpec))
  | [], _, acc => .ok acc
  | f :: rest, seen, acc =>
    match lookupKey f.Name seen with
    | some l0 => .error (.DuplicateNameError f.Name l0)
    | none =>
      match (compileFunction f).mapError (CompileError.WrappedError f.Name) with
      | .error e => .error e
      | .ok fs => compileServiceAux rest ((f.Name, f.Line) :: seen) (insertSorted f.Name fs acc)

/-- Modelled from the spec: `compileService` — compile the body's
functions; `extends <Name>` is recorded as an `Unresolved` parent
reference, left for linking; the fresh Spec is not yet linked. -/
def compileService (src : ASTService) : Except CompileError ServiceSpec :=
  match compileServiceAux src.Functions [] [] with
  | .error e => .error e
  | .ok fns =>
    .ok { Name := src.Name, Parent := src.Parent.map SpecRef.Unresolved,
          Functions := fns, linked := false }

/-! ## Linker (spec section 4.2)

Modelled from the spec: the linker bodies are not under `src/`.  Every
unresolved reference is looked up in the scope (failing with
`<name> is not defined` when absent); resolving `extends` stores the
exact handle found in scope; each Spec carries the already-`linked`
marker making a second `Link` a no-op success. -/

/-- Link a compiled type: resolve `Unresolved` references through the
scope; already-resolved references and primitives are left alone. -/
def TypeSpec.link (sc : Scope) : TypeSpec → Except LinkError TypeSpec
  | .MapSpec k v =>
    match k.link sc, v.link sc with
    | .ok k', .ok v' => .ok (.MapSpec k' v')
    | .error e, _ => .error e
    | _, .error e => .error e
  | .ListSpec v =>
    match v.link sc with
    | .ok v' => .ok (.ListSpec v')
    | .error e => .error e
  | .SetSpec v =>
    match v.link sc with
    | .ok v' => .ok (.SetSpec v')
    | .error e => .error e
  | .DefRef (.Unresolved n) =>
    match lookupKey n sc with
    | some h => .ok (.DefRef (.Resolved h))
    | none => .error (.UnresolvedReferenceError n)
  | t => .ok t

/-- Link every field of a `FieldGroup`. -/
def linkFieldGroup (sc : Scope) : FieldGroup → Except LinkError FieldGroup
  | [] => .ok []
  | (n, fs) :: rest =>
    match fs.Typ.link sc with
    | .error e => .error e
    | .ok t' =>
      match linkFieldGroup sc rest with
      | .error e => .error e
      | .ok rest' => .ok ((n, { fs with Typ := t' }) :: rest')

/-- Link a `ResultSpec`: its return type and its exception group. -/
def ResultSpec.link (sc : Scope) (r : ResultSpec) : Except LinkError ResultSpec :=
  match r.ReturnType with
  | none =>
    match linkFieldGroup sc r.Exceptions with
    | .error e => .error e
    | .ok exg => .ok { ReturnType := none, Exceptions := exg }
  | some t =>
    match t.link sc with
    | .error e => .error e
    | .ok t' =>
      match linkFieldGroup sc r.Exceptions with
      | .error e => .error e
      | .ok exg => .ok { ReturnType := some t', Exceptions := exg }

/-- Link a `FunctionSpec`: its arguments and its result. -/
def FunctionSpec.link (sc : Scope) (f : FunctionSpec) : Except LinkError FunctionSpec :=
  match linkFieldGroup sc f.ArgsSpec with
  | .error e => .error e
  | .ok args =>
    match f.Result with
    | none => .ok { f with ArgsSpec := args, Result := none }
    | some r =>
      match r.link sc with
      | .error e => .error e
      | .ok r' => .ok { f with ArgsSpec := args, Result := some r' }

/-- Link every function of the `Functions` mapping. -/
def linkFunctions (sc : Scope) : List (String × FunctionSpec) → Except LinkError (List (String × FunctionSpec))
  | [] => .ok []
  | (n, f) :: rest =>
    match f.link sc with
    | .error e => .error e
    | .ok f' =>
      match linkFunctions sc rest with
      | .error e => .error e
      | .ok rest' => .ok ((n, f') :: rest')

/-- Resolve the optional parent reference through the scope: the
resolved parent is the exact handle stored in the scope. -/
def linkParent (sc : Scope) : Option SpecRef → Except LinkError (Option SpecRef)
  | none => .ok none
  | some (.Resolved h) => .ok (some (.Resolved h))
  | some (.Unresolved n) =>
    match lookupKey n sc with
    | some h => .ok (some (.Resolved h))
    | none => .error (.UnresolvedReferenceError n)

/-- Modelled from the spec: `ServiceSpec.Link` — a no-op success when the
Spec is already linked; otherwise resolve the parent and every function,
and mark the Spec linked. -/
def ServiceSpec.Link (s : ServiceSpec) (sc : Scope) : Except LinkError ServiceSpec :=
  if s.linked then .ok s
  else
    match linkParent sc s.Parent with
    | .error e => .error e
    | .ok parent =>
      match linkFunctions sc s.Functions with
      | .error e => .error e
      | .ok fns => .ok { s with Parent := parent, Functions := fns, linked := true }

/-- The compile-then-link pipeline, keeping only the resulting Spec. -/
def compileAndLink (src : ASTService) (sc : Scope) : Option ServiceSpec :=
  match compileService src with
  | .error _ => none
  | .ok sp =>
    match sp.Link sc with
    | .error _ => none
    | .ok s' => some s'

/-! ## Specification-side helpers used by the theorems -/

/-- The effective field ids of a list of fields starting at position `pos0`. -/
def effIDsFrom : Nat → List ASTField → List Int
  | _, [] => []
  | pos0, f :: rest => effID pos0 f :: effIDsFrom (pos0 + 1) rest

/-- Search a field list (starting at position `pos0`) for the first field
named `k` and return the compiled field it produces. -/
def lookupMk : List ASTField → Nat → String → Option FieldSpec
  | [], _, _ => none
  | f :: rest, pos, k => if f.Name = k then some (mkFieldSpec pos f) else lookupMk rest (pos + 1) k

/-- Left-biased choice on `Option`. -/
def orO {α : Type} : Option α → Option α → Option α
  | some v, _ => some v
  | none, b => b

/-- `ContainsSubstr s sub`: `sub` occurs contiguously inside `s` (the
`assert.Contains` check of `service_test.go`). -/
def ContainsSubstr (s sub : String) : Prop :=
  ∃ p q, p ++ (sub ++ q) = s

/-- Extract the compiled Spec of a successful compilation (placeholder on
error; used only to name concrete successful runs). -/
def specOr (r : Except CompileError ServiceSpec) : ServiceSpec :=
  match r with
  | .ok s => s
  | .error _ => { Name := "", Parent := none, Functions := [], linked := false }

/-- Extract the linked Spec of a successful link (placeholder on error;
used only to name concrete successful runs). -/
def linkedOr (r : Except LinkError ServiceSpec) : ServiceSpec :=
  match r with
  | .ok s => s
  | .error _ => { Name := "", Parent := none, Functions := [], linked := false }

/-! ## The typedef reader generator (`gen/typedef.go`) -/

namespace Gen

/-- Modelled from the spec and `gen/typedef.go`: the repository's
`hasReaders` mixin and the `Generator`'s `DeclareFromTemplate` are not
under `src/`.  The generator state is the set of reader names already
declared (what `HasReader` consults) and the list of declarations made,
in order. -/
structure GenState where
  readers : List String
  decls : List String
deriving Repr, DecidableEq

/-- `HasReader`: whether a reader with this name has already been
declared on the generator. -/
def HasReader (t : GenState) (name : String) : Bool :=
  t.readers.contains name

/-- Modelled from the spec: `DeclareFromTemplate` records the declaration
named `name` (the instantiated reader template) and registers the reader
name; the static typedef template always instantiates successfully, so no
error is produced. -/
def DeclareFromTemplate (st : GenState) (name : String) : GenState × Option String :=
  ({ readers := name :: st.readers, decls := name :: st.decls }, none)

/-- `wrapGenerateError` from the `gen` package: wraps a non-nil error
with the defaulting entity's Thrift name, and passes `nil` through. -/
def wrapGenerateError (n : String) : Option String → Option String
  | none => none
  | some e => some ("could not generate code for " ++ n ++ ": " ++ e)

/-- `typedefGenerator.Reader` (`gen/typedef.go`): derive the reader name
`"_" ++ goCase(spec.ThriftName()) ++ "_Read"`; if a reader with that name
was already declared, return it with no error; otherwise declare the
reader template and return the name with the wrapped declaration error.
`goCase` (defined elsewhere in the repository) is passed in as an opaque
renaming, and the typedef spec is represented by its Thrift name. -/
def Reader (goCase : String → String) (st : GenState) (thriftName : String) :
    GenState × String × Option String :=
  let name := "_" ++ goCase thriftName ++ "_Read"
  if HasReader st name then (st, name, none)
  else
    let d := DeclareFromTemplate st name
    (d.1, name, wrapGenerateError thriftName d.2)

end Gen

/-! ## Concrete inputs (the scenarios of `service_test.go`) -/

/-- `service BulkKeyValue extends KeyValue { void setValues(1: map<string, binary> items) }`. -/
def bulkSrc : ASTService :=
  { Name := "BulkKeyValue", Parent := some "KeyValue",
    Functions := [
      { Name := "setValues",
        Parameters := [
          { ID := some 1, Name := "items", Typ := .TMap .TString .TBinary,
            Default := none, Line := 3 } ],
        ReturnType := none, Exceptions := none, Line := 3 } ],
    Line := 2 }

/-- A scope containing the compiled `KeyValue` Spec (as handle `7`). -/
def bulkScope : Scope := [("KeyValue", 7)]

/-- The compiled (unlinked) `BulkKeyValue` Spec. -/
def bulkCompiled : ServiceSpec := specOr (compileService bulkSrc)

/-- The linked `BulkKeyValue` Spec. -/
def bulkLinked : ServiceSpec := linkedOr (bulkCompiled.Link bulkScope)

/-- `service Foo { void foo(); void bar(); i32 foo() }` with the source
lines of the `duplicate function name` test case. -/
def fooDupSrc : ASTService :=
  { Name := "Foo", Parent := none,
    Functions := [
      { Name := "foo", Parameters := [], ReturnType := none, Exceptions := none, Line := 3 },
      { Name := "bar", Parameters := [], ReturnType := none, Exceptions := none, Line := 4 },
      { Name := "foo", Parameters := [], ReturnType := some .TI32, Exceptions := none, Line := 5 } ],
    Line := 2 }

/-- `service Foo { void bar(1: string foo, 2: binary bar, 3: i32 foo) }`
(the `duplicate in arg list` test case). -/
def argDupSrc : ASTService :=
  { Name := "Foo", Parent := none,
    Functions := [
      { Name := "bar",
        Parameters := [
          { ID := some 1, Name := "foo", Typ := .TString, Default := none, Line := 4 },
          { ID := some 2, Name := "bar", Typ := .TBinary, Default := none, Line := 5 },
          { ID := some 3, Name := "foo", Typ := .TI32, Default := none, Line := 6 } ],
        ReturnType := none, Exceptions := none, Line := 3 } ],
    Line := 2 }

/-- The `exceptions cannot have default values` test case: `void bar()`
whose second throws entry carries a default value. -/
def excDefSrc : ASTService :=
  { Name := "Foo", Parent := none,
    Functions := [
      { Name := "bar", Parameters := [],
        ReturnType := none,
        Exceptions := some [
          { ID := some 1, Name := "doesNotExist", Typ := .TNamed "KeyDoesNotExist",
            Default := none, Line := 4 },
          { ID := some 2, Name := "internalError", Typ := .TNamed "InternalServiceError",
            Default := some "An internal error occurred", Line := 5 } ],
        Line := 3 } ],
    Line := 2 }

/-- The argument list of `setValue(1: string key, 2: binary value)`. -/
def kvSetValueParams : List ASTField :=
  [ { ID := some 1, Name := "key", Typ := .TString, Default := none, Line := 3 },
    { ID := some 2, Name := "value", Typ := .TBinary, Default := none, Line := 3 } ]

/-- A field `1: string a`. -/
def fldA : ASTField := { ID := some 1, Name := "a", Typ := .TString, Default := none, Line := 3 }

/-- A field `2: binary b`. -/
def fldB : ASTField := { ID := some 2, Name := "b", Typ := .TBinary, Default := none, Line := 4 }

/-- The group compiled from `[fldA, fldB]`. -/
def groupAB : FieldGroup :=
  match compileFields false [fldA, fldB] with
  | .ok g => g
  | .error _ => []

/-- `service Foo {}` (the `empty service` test case). -/
def fooEmptySrc : ASTService :=
  { Name := "Foo", Parent := none, Functions := [], Line := 1 }

/-- The compiled empty service. -/
def fooEmptyCompiled : ServiceSpec := specOr (compileService fooEmptySrc)

/-- The empty service after its first (successful) link. -/
def fooEmptyLinked : ServiceSpec := linkedOr (fooEmptyCompiled.Link [])

/-- A two-entry scope. -/
def detScope1 : Scope := [("KeyDoesNotExist", 11), ("InternalServiceError", 12)]

/-- The same mapping with its entries listed in the other order. -/
def detScope2 : Scope := [("InternalServiceError", 12), ("KeyDoesNotExist", 11)]

/-- A scope holding `KeyValue` plus one more entry. -/
def bulkScopeA : Scope := [("KeyValue", 7), ("KeyDoesNotExist", 11)]

/-- The same mapping, entries listed in the other order. -/
def bulkScopeB : Scope := [("KeyDoesNotExist", 11), ("KeyValue", 7)]

/-! # Theorems

## Association-list lemmas -/

theorem lookupKey_eq_none {α : Type} (n : String) (m : List (String × α)) :
    lookupKey n m = none ↔ n ∉ m.map Prod.fst := by
  induction m with
  | nil => simp [lookupKey]
  | cons p rest ih =>
    by_cases h : n = p.1
    · simp [lookupKey, h]
    · simp [lookupKey, h, ih]

theorem lookupKey_append_of_none {α : Type} {n : String} {l1 : List (String × α)}
    (l2 : List (String × α)) (h : lookupKey n l1 = none) :
    lookupKey n (l1 ++ l2) = lookupKey n l2 := by
  induction l1 with
  | nil => rfl
  | cons p rest ih =>
    by_cases hp : n = p.1
    · simp [lookupKey, hp] at h
    · simp [lookupKey, hp] at h ⊢
      exact ih h

theorem lookupKey_insertSorted_ne {α : Type} {n k : String} (hne : n ≠ k) (v : α)
    (m : List (String × α)) :
    lookupKey n (insertSorted k v m) = lookupKey n m := by
  induction m with
  | nil => simp [insertSorted, lookupKey, hne]
  | cons p rest ih =>
    by_cases hlt : strLt k p.1 = true
    · simp [insertSorted, hlt, lookupKey, hne]
    · by_cases hp : n = p.1
      · simp [insertSorted, hlt, lookupKey, hp]
      · simp [insertSorted, hlt, lookupKey, hp, ih]

theorem lookupKey_insertSorted_self {α : Type} {k : String} (v : α)
    {m : List (String × α)} (hk : lookupKey k m = none) :
    lookupKey k (insertSorted k v m) = some v := by
  induction m with
  | nil => simp [insertSorted, lookupKey]
  | cons p rest ih =>
    by_cases hp : k = p.1
    · simp [lookupKey, hp] at hk
    · simp [lookupKey, hp] at hk
      by_cases hlt : strLt k p.1 = true
      · simp [insertSorted, hlt, lookupKey]
      · simp [insertSorted, hlt, lookupKey, hp, ih hk]

theorem keys_insertSorted_perm {α : Type} (k : String) (v : α) (m : List (String × α)) :
    ((insertSorted k v m).map Prod.fst).Perm (k :: m.map Prod.fst) := by
  induction m with
  | nil => simp [insertSorted]
  | cons p rest ih =>
    by_cases hlt : strLt k p.1 = true
    · simp [insertSorted, hlt]
    · simp only [insertSorted, hlt, if_false, List.map_cons]
      exact (ih.cons p.1).trans (List.Perm.swap k p.1 (rest.map Prod.fst))

theorem nodup_keys_insertSorted {α : Type} {k : String} (v : α)
    {m : List (String × α)} (hk : lookupKey k m = none)
    (h : (m.map Prod.fst).Nodup) :
    ((insertSorted k v m).map Prod.fst).Nodup := by
  refine (keys_insertSorted_perm k v m).nodup_iff.mpr ?_
  exact List.nodup_cons.mpr ⟨(lookupKey_eq_none k m).mp hk, h⟩

theorem lookupKey_reverse_append {β : Type} (l : List (String × β)) (k : String) (v : β)
    (seen : List (String × β)) (hnodup : (l.map Prod.fst).Nodup) (hmem : (k, v) ∈ l) :
    lookupKey k (l.reverse ++ seen) = some v := by
  induction l generalizing seen with
  | nil => cases hmem
  | cons p rest ih =>
    rw [List.reverse_cons, List.append_assoc]
    rcases List.mem_cons.mp hmem with heq | htail
    · have hk : lookupKey k rest.reverse = none := by
        rw [lookupKey_eq_none, List.map_reverse, List.mem_reverse]
        rw [← heq] at hnodup
        exact (List.nodup_cons.mp hnodup).1
      rw [lookupKey_append_of_none _ hk, ← heq]
      simp [lookupKey]
    · exact ih (p :: seen) (List.nodup_cons.mp hnodup).2 htail

/-! ## Substring-containment lemmas -/

theorem contains_of_prefix (sub q : String) : ContainsSubstr (sub ++ q) sub :=
  ⟨"", q, rfl⟩

theorem contains_append_left (p : String) {s sub : String} (h : ContainsSubstr s sub) :
    ContainsSubstr (p ++ s) sub := by
  obtain ⟨p', q, hh⟩ := h
  exact ⟨p ++ p', q, by rw [String.append_assoc, hh]⟩

theorem contains_append_right (q : String) {s sub : String} (h : ContainsSubstr s sub) :
    ContainsSubstr (s ++ q) sub := by
  obtain ⟨p', q', hh⟩ := h
  refine ⟨p', q' ++ q, ?_⟩
  rw [← hh, String.append_assoc, String.append_assoc]

/-! ## Linker lemmas -/

theorem Link_linked {s : ServiceSpec} {sc : Scope} {s' : ServiceSpec}
    (h : s.Link sc = .ok s') : s'.linked = true := by
  unfold ServiceSpec.Link at h
  by_cases hl : s.linked = true
  · rw [if_pos hl] at h
    obtain rfl : s = s' := Except.ok.inj h
    exact hl
  · rw [if_neg hl] at h
    cases hp : linkParent sc s.Parent with
    | error e => simp [hp] at h
    | ok parent =>
      cases hf : linkFunctions sc s.Functions with
      | error e => simp [hp, hf] at h
      | ok fns =>
        simp [hp, hf] at h
        rw [← h]

/-- Shape of a successful compile: the parent is recorded unresolved, the
Spec is not yet linked, and the functions mapping is the one built by
`compileServiceAux`. -/
theorem compileService_ok {src : ASTService} {sp : ServiceSpec}
    (h : compileService src = .ok sp) :
    sp.Parent = src.Parent.map SpecRef.Unresolved ∧ sp.linked = false ∧
    compileServiceAux src.Functions [] [] = .ok sp.Functions := by
  unfold compileService at h
  cases ha : compileServiceAux src.Functions [] [] with
  | error e => rw [ha] at h; cases h
  | ok fns =>
    rw [ha] at h
    obtain rfl := Except.ok.inj h
    exact ⟨rfl, rfl, rfl⟩

/-- C2: Link is idempotent — once a Spec has been linked successfully,
linking it again with any scope (the already-`linked` marker) returns the
very same Spec with no error and performs no further mutation. -/
theorem Link_idempotent (s : ServiceSpec) (sc sc2 : Scope) (s' : ServiceSpec)
    (h : s.Link sc = .ok s') : s'.Link sc2 = .ok s' := by
  have hl := Link_linked h
  unfold ServiceSpec.Link
  rw [if_pos hl]

/-- C2 witness: the compiled `service Foo {}` links with an empty scope,
and linking the result again (against a non-empty scope) is a no-op
success. -/
theorem Link_idempotent_witness :
    fooEmptyLinked.Link [("KeyValue", 7)] = .ok fooEmptyLinked :=
  Link_idempotent fooEmptyCompiled [] [("KeyValue", 7)] fooEmptyLinked rfl

/-- C1: linking `B extends A` against a scope containing A's compiled
Spec stores in `B.Parent` the exact handle (instance identity) found in
the scope. -/
theorem link_extends_identity (src : ASTService) (a : String) (h : Nat) (sc : Scope)
    (sp s' : ServiceSpec)
    (hparent : src.Parent = some a)
    (hc : compileService src = .ok sp)
    (hsc : lookupKey a sc = some h)
    (hl : sp.Link sc = .ok s') :
    s'.Parent = some (SpecRef.Resolved h) := by
  obtain ⟨hP, hL, -⟩ := compileService_ok hc
  unfold ServiceSpec.Link at hl
  rw [if_neg (by rw [hL]; exact Bool.false_ne_true)] at hl
  rw [hP, hparent] at hl
  simp only [Option.map_some'] at hl
  cases hf : linkFunctions sc sp.Functions with
  | error e => simp [linkParent, hsc, hf] at hl
  | ok fns =>
    simp [linkParent, hsc, hf] at hl
    rw [← hl]

/-- C1 witness: compiling `service BulkKeyValue extends KeyValue {...}`
and linking it against a scope mapping `KeyValue` to handle `7` sets the
parent to exactly that handle. -/
theorem link_extends_identity_witness :
    bulkLinked.Parent = some (SpecRef.Resolved 7) :=
  link_extends_identity bulkSrc "KeyValue" 7 bulkScope bulkCompiled bulkLinked
    rfl rfl rfl rfl

/-! ## Error-message shape lemmas -/

theorem dup_message_split (n : String) (l : Nat) :
    (CompileError.DuplicateNameError n l).message =
      ("the name \"" ++ n ++ "\" has already been used") ++ (" on line " ++ toString l) := by
  have h : ("\" has already been used on line " : String) ++ toString l =
      "\" has already been used" ++ (" on line " ++ toString l) := by
    rw [← String.append_assoc]
    rfl
  show "the name \"" ++ n ++ "\" has already been used on line " ++ toString l = _
  rw [String.append_assoc, h, ← String.append_assoc]

/-- The duplicate-name message contains `the name "<X>" has already been used`. -/
theorem contains_dup_message (n : String) (l : Nat) :
    ContainsSubstr (CompileError.DuplicateNameError n l).message
      ("the name \"" ++ n ++ "\" has already been used") := by
  rw [dup_message_split]
  exact contains_of_prefix _ _

/-- The wrapped message contains `cannot compile "<owner>"`. -/
theorem contains_wrapped_prefix (o : String) (e : CompileError) :
    ContainsSubstr (CompileError.WrappedError o e).message
      ("cannot compile \"" ++ o ++ "\"") :=
  ⟨"", ": " ++ e.message, rfl⟩

/-- A substring of the inner message is a substring of the wrapped one. -/
theorem contains_wrapped_inner (o : String) (e : CompileError) {sub : String}
    (h : ContainsSubstr e.message sub) :
    ContainsSubstr (CompileError.WrappedError o e).message sub :=
  contains_append_left _ (contains_append_left ": " h)

/-- The illegal-default message contains `field "<name>"`. -/
theorem contains_default_field (n : String) :
    ContainsSubstr (CompileError.IllegalDefaultValueError n).message
      ("field \"" ++ n ++ "\"") :=
  ⟨"", " cannot have a default value", rfl⟩

/-- The illegal-default message contains `cannot have a default value`. -/
theorem contains_default_tail (n : String) :
    ContainsSubstr (CompileError.IllegalDefaultValueError n).message
      "cannot have a default value" := by
  show ContainsSubstr (("field \"" ++ n ++ "\"") ++ (" " ++ "cannot have a default value")) _
  refine ⟨("field \"" ++ n ++ "\"") ++ " ", "", ?_⟩
  rw [String.append_empty, String.append_assoc]

/-! ## Duplicate function names (service body) -/

/-- `compileServiceAux` walks past a prefix of name-fresh, individually
compilable functions, recording their names and lines. -/
theorem compileServiceAux_append (pre rest : List ASTFunction)
    (seen : List (String × Nat)) (acc : List (String × FunctionSpec))
    (hclean : ∀ p ∈ pre, ∃ fs, compileFunction p = Except.ok fs)
    (hnodup : (pre.map ASTFunction.Name).Nodup)
    (hseen : ∀ p ∈ pre, lookupKey p.Name seen = none) :
    ∃ acc', compileServiceAux (pre ++ rest) seen acc =
      compileServiceAux rest ((pre.map fun f => (f.Name, f.Line)).reverse ++ seen) acc' := by
  induction pre generalizing seen acc with
  | nil => exact ⟨acc, rfl⟩
  | cons f pre' ih =>
    obtain ⟨fs, hfs⟩ := hclean f (List.mem_cons_self f pre')
    have h1 : lookupKey f.Name seen = none := hseen f (List.mem_cons_self f pre')
    have step : compileServiceAux ((f :: pre') ++ rest) seen acc =
        compileServiceAux (pre' ++ rest) ((f.Name, f.Line) :: seen)
          (insertSorted f.Name fs acc) := by
      simp [compileServiceAux, h1, hfs, Except.mapError]
    obtain ⟨acc', ha⟩ := ih ((f.Name, f.Line) :: seen) (insertSorted f.Name fs acc)
      (fun p hp => hclean p (List.mem_cons_of_mem f hp))
      (List.nodup_cons.mp hnodup).2
      (fun p hp => by
        have hne : p.Name ≠ f.Name := by
          intro he
          exact (List.nodup_cons.mp hnodup).1 (he ▸ List.mem_map_of_mem ASTFunction.Name hp)
        simp [lookupKey, hne, hseen p (List.mem_cons_of_mem f hp)])
    refine ⟨acc', ?_⟩
    rw [step, ha]
    congr 1
    simp [List.append_assoc]

/-- C3: a service body declaring the same function name twice fails to
compile with a `DuplicateNameError` whose message is
`the name "<X>" has already been used on line <N>`, `<N>` being the line
of the first occurrence.  (`pre` is the part of the body before the
repeated declaration `g`; per spec section 7 compilation is fail-fast,
so the functions before `g` are the ones already compiled cleanly.) -/
theorem compile_duplicate_function_name (src : ASTService)
    (pre post : List ASTFunction) (g f : ASTFunction)
    (hsplit : src.Functions = pre ++ g :: post)
    (hclean : ∀ p ∈ pre, ∃ fs, compileFunction p = Except.ok fs)
    (hnodup : (pre.map ASTFunction.Name).Nodup)
    (hf : f ∈ pre) (hname : g.Name = f.Name) :
    compileService src = .error (.DuplicateNameError g.Name f.Line) ∧
    (CompileError.DuplicateNameError g.Name f.Line).message =
      "the name \"" ++ g.Name ++ "\" has already been used on line " ++ toString f.Line := by
  refine ⟨?_, rfl⟩
  unfold compileService
  rw [hsplit]
  obtain ⟨acc', ha⟩ := compileServiceAux_append pre (g :: post) [] [] hclean hnodup
    (fun p _ => rfl)
  rw [ha]
  have hlk : lookupKey g.Name ((pre.map fun x => (x.Name, x.Line)).reverse ++ []) =
      some f.Line := by
    rw [hname]
    exact lookupKey_reverse_append (pre.map fun x => (x.Name, x.Line)) f.Name f.Line []
      (by simpa [List.map_map, Function.comp] using hnodup)
      (List.mem_map_of_mem _ hf)
  rw [List.append_nil] at hlk
  simp [compileServiceAux, hlk]

/-- C3 witness: `service Foo { void foo(); void bar(); i32 foo() }` (with
`void foo()` on line 3 and `i32 foo()` on line 5) fails with exactly
`the name "foo" has already been used on line 3`. -/
theorem compile_duplicate_function_name_witness :
    compileService fooDupSrc = .error (.DuplicateNameError "foo" 3) ∧
    (CompileError.DuplicateNameError "foo" 3).message =
      "the name \"foo\" has already been used on line 3" :=
  compile_duplicate_function_name fooDupSrc
    [{ Name := "foo", Parameters := [], ReturnType := none, Exceptions := none, Line := 3 },
     { Name := "bar", Parameters := [], ReturnType := none, Exceptions := none, Line := 4 }]
    []
    { Name := "foo", Parameters := [], ReturnType := some .TI32, Exceptions := none, Line := 5 }
    { Name := "foo", Parameters := [], ReturnType := none, Exceptions := none, Line := 3 }
    rfl
    (by intro p hp; fin_cases hp <;> exact ⟨_, rfl⟩)
    (by decide)
    (by decide)
    rfl

/-! ## Field groups: duplicate names and illegal defaults -/

/-- `compileFieldsAux` walks past a prefix of default-legal, name-fresh,
id-fresh fields, recording their names, lines and effective ids. -/
theorem compileFieldsAux_append (isExc : Bool) (qre rest : List ASTField) (pos0 : Nat)
    (seenN : List (String × Nat)) (seenI : List Int) (acc : FieldGroup)
    (hdef : isExc = true → ∀ q ∈ qre, q.Default = none)
    (hnodup : (qre.map ASTField.Name).Nodup)
    (hseenN : ∀ q ∈ qre, lookupKey q.Name seenN = none)
    (hidsN : (effIDsFrom pos0 qre).Nodup)
    (hidsS : ∀ i ∈ effIDsFrom pos0 qre, i ∉ seenI) :
    ∃ acc', compileFieldsAux isExc (qre ++ rest) pos0 seenN seenI acc =
      compileFieldsAux isExc rest (pos0 + qre.length)
        ((qre.map fun q => (q.Name, q.Line)).reverse ++ seenN)
        ((effIDsFrom pos0 qre).reverse ++ seenI) acc' := by
  induction qre generalizing pos0 seenN seenI acc with
  | nil => exact ⟨acc, rfl⟩
  | cons q qre' ih =>
    have hd : ¬(isExc = true ∧ q.Default.isSome = true) := by
      rintro ⟨he, hs⟩
      rw [hdef he q (List.mem_cons_self q qre')] at hs
      cases hs
    have h1 : lookupKey q.Name seenN = none := hseenN q (List.mem_cons_self q qre')
    have h2 : effID pos0 q ∉ seenI :=
      hidsS (effID pos0 q) (by simp [effIDsFrom])
    have hidsN' : (effIDsFrom (pos0 + 1) qre').Nodup := by
      rw [show effIDsFrom pos0 (q :: qre') = effID pos0 q :: effIDsFrom (pos0 + 1) qre'
        from rfl] at hidsN
      exact (List.nodup_cons.mp hidsN).2
    have hheadI : effID pos0 q ∉ effIDsFrom (pos0 + 1) qre' := by
      rw [show effIDsFrom pos0 (q :: qre') = effID pos0 q :: effIDsFrom (pos0 + 1) qre'
        from rfl] at hidsN
      exact (List.nodup_cons.mp hidsN).1
    have step : compileFieldsAux isExc ((q :: qre') ++ rest) pos0 seenN seenI acc =
        compileFieldsAux isExc (qre' ++ rest) (pos0 + 1) ((q.Name, q.Line) :: seenN)
          (effID pos0 q :: seenI) (insertSorted q.Name (mkFieldSpec pos0 q) acc) := by
      simp [compileFieldsAux, hd, h1, h2]
    obtain ⟨acc', ha⟩ := ih (pos0 + 1) ((q.Name, q.Line) :: seenN) (effID pos0 q :: seenI)
      (insertSorted q.Name (mkFieldSpec pos0 q) acc)
      (fun he q' hq' => hdef he q' (List.mem_cons_of_mem q hq'))
      (List.nodup_cons.mp hnodup).2
      (fun q' hq' => by
        have hne : q'.Name ≠ q.Name := by
          intro he
          exact (List.nodup_cons.mp hnodup).1 (he ▸ List.mem_map_of_mem ASTField.Name hq')
        simp [lookupKey, hne, hseenN q' (List.mem_cons_of_mem q hq')])
      hidsN'
      (fun i hi => by
        have hne : i ≠ effID pos0 q := fun he => hheadI (he ▸ hi)
        simp [hne, hidsS i (by simp [effIDsFrom]; exact Or.inr hi)])
    refine ⟨acc', ?_⟩
    rw [step, ha]
    congr 1
    · simp only [List.length_cons]
      omega
    · simp [List.append_assoc]
    · simp [effIDsFrom, List.append_assoc]

/-- A duplicate field name inside a group makes the builder fail with
the duplicate-name error carrying the first occurrence's line. -/
theorem compileFields_dup (isExc : Bool) (qre qost : List ASTField) (w v : ASTField)
    (hdef : isExc = true → ∀ q ∈ qre, q.Default = none)
    (hnodup : (qre.map ASTField.Name).Nodup)
    (hids : (effIDsFrom 0 qre).Nodup)
    (hwdef : isExc = true → w.Default = none)
    (hv : v ∈ qre) (hvn : w.Name = v.Name) :
    compileFields isExc (qre ++ w :: qost) = .error (.DuplicateNameError w.Name v.Line) := by
  unfold compileFields
  obtain ⟨acc', ha⟩ := compileFieldsAux_append isExc qre (w :: qost) 0 [] [] [] hdef hnodup
    (fun q _ => rfl) hids (fun i _ => List.not_mem_nil i)
  rw [ha]
  have hd : ¬(isExc = true ∧ w.Default.isSome = true) := by
    rintro ⟨he, hs⟩
    rw [hwdef he] at hs
    cases hs
  have hlk : lookupKey w.Name ((qre.map fun x => (x.Name, x.Line)).reverse ++ []) =
      some v.Line := by
    rw [hvn]
    exact lookupKey_reverse_append (qre.map fun x => (x.Name, x.Line)) v.Name v.Line []
      (by simpa [List.map_map, Function.comp] using hnodup)
      (List.mem_map_of_mem _ hv)
  rw [List.append_nil] at hlk
  simp [compileFieldsAux, hd, hlk]

/-- A default value on a field of an exception group makes the builder
fail with the illegal-default error, whatever the field's position. -/
theorem compileFields_default (qre qost : List ASTField) (w : ASTField)
    (hqdef : ∀ q ∈ qre, q.Default = none)
    (hnodup : (qre.map ASTField.Name).Nodup)
    (hids : (effIDsFrom 0 qre).Nodup)
    (hw : w.Default.isSome = true) :
    compileFields true (qre ++ w :: qost) = .error (.IllegalDefaultValueError w.Name) := by
  unfold compileFields
  obtain ⟨acc', ha⟩ := compileFieldsAux_append true qre (w :: qost) 0 [] [] []
    (fun _ => hqdef) hnodup (fun q _ => rfl) hids (fun i _ => List.not_mem_nil i)
  rw [ha]
  simp [compileFieldsAux, hw]

/-- A failing argument list fails the whole function. -/
theorem compileFunction_args_error {f : ASTFunction} {e : CompileError}
    (hf : compileFields false f.Parameters = .error e) :
    compileFunction f = .error e := by
  unfold compileFunction
  rw [hf]

/-- Once the arguments compile, a failing throws list fails the function. -/
theorem compileFunction_exc_error {f : ASTFunction} {ag : FieldGroup}
    {exns : List ASTField} {e : CompileError}
    (hargs : compileFields false f.Parameters = .ok ag)
    (hexc : f.Exceptions = some exns)
    (he : compileFields true exns = .error e) :
    compileFunction f = .error e := by
  unfold compileFunction
  rw [hargs, hexc]
  cases f.ReturnType <;> simp [he]

/-- A function failing to compile fails the whole service with the error
wrapped in the function's name (once the functions before it compiled
cleanly under fresh names). -/
theorem compileService_function_error (src : ASTService)
    (pre post : List ASTFunction) (f : ASTFunction) {e : CompileError}
    (hsplit : src.Functions = pre ++ f :: post)
    (hclean : ∀ p ∈ pre, ∃ fs, compileFunction p = Except.ok fs)
    (hnodup : (pre.map ASTFunction.Name).Nodup)
    (hfpre : f.Name ∉ pre.map ASTFunction.Name)
    (herr : compileFunction f = .error e) :
    compileService src = .error (.WrappedError f.Name e) := by
  unfold compileService
  rw [hsplit]
  obtain ⟨acc', ha⟩ := compileServiceAux_append pre (f :: post) [] [] hclean hnodup
    (fun p _ => rfl)
  rw [ha]
  have hlk : lookupKey f.Name ((pre.map fun x => (x.Name, x.Line)).reverse ++ []) = none := by
    rw [lookupKey_eq_none, List.append_nil, List.map_reverse, List.mem_reverse, List.map_map]
    simpa [Function.comp] using hfpre
  rw [List.append_nil] at hlk
  simp [compileServiceAux, hlk, herr, Except.mapError]

/-- C4: a duplicate field name inside a function's argument list
(`inArgs = true`) or throws list (`inArgs = false`) fails Compile with an
error whose message contains both `cannot compile "<owner>"` (the owning
function) and `the name "<X>" has already been used`. -/
theorem compile_duplicate_field_name (src : ASTService)
    (pre post : List ASTFunction) (f : ASTFunction) (inArgs : Bool)
    (qre qost : List ASTField) (w v : ASTField)
    (hsplit : src.Functions = pre ++ f :: post)
    (hclean : ∀ p ∈ pre, ∃ fs, compileFunction p = Except.ok fs)
    (hnodup : (pre.map ASTFunction.Name).Nodup)
    (hfpre : f.Name ∉ pre.map ASTFunction.Name)
    (hlist : (if inArgs then f.Parameters else f.Exceptions.getD []) = qre ++ w :: qost)
    (hargsOK : inArgs = false → ∃ ag, compileFields false f.Parameters = .ok ag)
    (hexcSome : inArgs = false → f.Exceptions = some (qre ++ w :: qost))
    (hqdef : inArgs = false → ∀ q ∈ qre, q.Default = none)
    (hwdef : inArgs = false → w.Default = none)
    (hqnodup : (qre.map ASTField.Name).Nodup)
    (hqids : (effIDsFrom 0 qre).Nodup)
    (hv : v ∈ qre) (hvn : w.Name = v.Name) :
    compileService src = .error (.WrappedError f.Name (.DuplicateNameError w.Name v.Line)) ∧
    ContainsSubstr (CompileError.WrappedError f.Name
        (.DuplicateNameError w.Name v.Line)).message
      ("cannot compile \"" ++ f.Name ++ "\"") ∧
    ContainsSubstr (CompileError.WrappedError f.Name
        (.DuplicateNameError w.Name v.Line)).message
      ("the name \"" ++ w.Name ++ "\" has already been used") := by
  refine ⟨?_, contains_wrapped_prefix _ _,
    contains_wrapped_inner _ _ (contains_dup_message _ _)⟩
  apply compileService_function_error src pre post f hsplit hclean hnodup hfpre
  cases inArgs with
  | true =>
    simp only [if_true] at hlist
    refine compileFunction_args_error ?_
    rw [hlist]
    exact compileFields_dup false qre qost w v (fun h => nomatch h) hqnodup hqids
      (fun h => nomatch h) hv hvn
  | false =>
    obtain ⟨ag, hag⟩ := hargsOK rfl
    exact compileFunction_exc_error hag (hexcSome rfl)
      (compileFields_dup true qre qost w v (fun _ => hqdef rfl) hqnodup hqids
        (fun _ => hwdef rfl) hv hvn)

/-- C4 witness: `service Foo { void bar(1: string foo, 2: binary bar,
3: i32 foo) }` fails with a message containing `cannot compile "bar"`
and `the name "foo" has already been used`. -/
theorem compile_duplicate_field_name_witness :
    compileService argDupSrc =
      .error (.WrappedError "bar" (.DuplicateNameError "foo" 4)) ∧
    ContainsSubstr (CompileError.WrappedError "bar"
        (.DuplicateNameError "foo" 4)).message "cannot compile \"bar\"" ∧
    ContainsSubstr (CompileError.WrappedError "bar"
        (.DuplicateNameError "foo" 4)).message
      "the name \"foo\" has already been used" :=
  compile_duplicate_field_name argDupSrc [] []
    { Name := "bar",
      Parameters := [
        { ID := some 1, Name := "foo", Typ := .TString, Default := none, Line := 4 },
        { ID := some 2, Name := "bar", Typ := .TBinary, Default := none, Line := 5 },
        { ID := some 3, Name := "foo", Typ := .TI32, Default := none, Line := 6 } ],
      ReturnType := none, Exceptions := none, Line := 3 }
    true
    [ { ID := some 1, Name := "foo", Typ := .TString, Default := none, Line := 4 },
      { ID := some 2, Name := "bar", Typ := .TBinary, Default := none, Line := 5 } ]
    []
    { ID := some 3, Name := "foo", Typ := .TI32, Default := none, Line := 6 }
    { ID := some 1, Name := "foo", Typ := .TString, Default := none, Line := 4 }
    rfl
    (fun p hp => absurd hp (List.not_mem_nil p))
    (by decide)
    (by decide)
    rfl
    (fun h => nomatch h)
    (fun h => nomatch h)
    (fun h => nomatch h)
    (fun h => nomatch h)
    (by decide)
    (by decide)
    (by decide)
    rfl

/-- C5: a default value on a field of a function's throws list fails
Compile — whatever the field's position in the list — with an error
whose message contains `field "<name>"` and
`cannot have a default value`. -/
theorem compile_exception_default_value (src : ASTService)
    (pre post : List ASTFunction) (f : ASTFunction)
    (qre qost : List ASTField) (w : ASTField)
    (hsplit : src.Functions = pre ++ f :: post)
    (hclean : ∀ p ∈ pre, ∃ fs, compileFunction p = Except.ok fs)
    (hnodup : (pre.map ASTFunction.Name).Nodup)
    (hfpre : f.Name ∉ pre.map ASTFunction.Name)
    (hargsOK : ∃ ag, compileFields false f.Parameters = .ok ag)
    (hexc : f.Exceptions = some (qre ++ w :: qost))
    (hqdef : ∀ q ∈ qre, q.Default = none)
    (hqnodup : (qre.map ASTField.Name).Nodup)
    (hqids : (effIDsFrom 0 qre).Nodup)
    (hw : w.Default.isSome = true) :
    compileService src = .error (.WrappedError f.Name (.IllegalDefaultValueError w.Name)) ∧
    ContainsSubstr (CompileError.WrappedError f.Name
        (.IllegalDefaultValueError w.Name)).message
      ("field \"" ++ w.Name ++ "\"") ∧
    ContainsSubstr (CompileError.WrappedError f.Name
        (.IllegalDefaultValueError w.Name)).message
      "cannot have a default value" := by
  refine ⟨?_, contains_wrapped_inner _ _ (contains_default_field _),
    contains_wrapped_inner _ _ (contains_default_tail _)⟩
  apply compileService_function_error src pre post f hsplit hclean hnodup hfpre
  obtain ⟨ag, hag⟩ := hargsOK
  exact compileFunction_exc_error hag hexc
    (compileFields_default qre qost w hqdef hqnodup hqids hw)

/-- C5 witness: the `exceptions cannot have default values` scenario —
`void bar() throws (1: KeyDoesNotExist doesNotExist, 2:
InternalServiceError internalError = {...})` — fails with a message
containing `field "internalError"` and `cannot have a default value`. -/
theorem compile_exception_default_value_witness :
    compileService excDefSrc =
      .error (.WrappedError "bar" (.IllegalDefaultValueError "internalError")) ∧
    ContainsSubstr (CompileError.WrappedError "bar"
        (.IllegalDefaultValueError "internalError")).message "field \"internalError\"" ∧
    ContainsSubstr (CompileError.WrappedError "bar"
        (.IllegalDefaultValueError "internalError")).message
      "cannot have a default value" :=
  compile_exception_default_value excDefSrc [] []
    { Name := "bar", Parameters := [],
      ReturnType := none,
      Exceptions := some [
        { ID := some 1, Name := "doesNotExist", Typ := .TNamed "KeyDoesNotExist",
          Default := none, Line := 4 },
        { ID := some 2, Name := "internalError", Typ := .TNamed "InternalServiceError",
          Default := some "An internal error occurred", Line := 5 } ],
      Line := 3 }
    [ { ID := some 1, Name := "doesNotExist", Typ := .TNamed "KeyDoesNotExist",
        Default := none, Line := 4 } ]
    []
    { ID := some 2, Name := "internalError", Typ := .TNamed "InternalServiceError",
      Default := some "An internal error occurred", Line := 5 }
    rfl
    (fun p hp => absurd hp (List.not_mem_nil p))
    (by decide)
    (by decide)
    ⟨[], rfl⟩
    rfl
    (by intro q hq; fin_cases hq; rfl)
    (by decide)
    (by decide)
    rfl

/-! ## The `Functions` mapping holds exactly the body's own functions -/

theorem lookupKey_isSome {α : Type} (n : String) (m : List (String × α)) :
    (lookupKey n m).isSome = true ↔ n ∈ m.map Prod.fst := by
  constructor
  · intro h
    by_contra hn
    rw [(lookupKey_eq_none n m).mpr hn] at h
    cases h
  · intro h
    cases hc : lookupKey n m with
    | some v => rfl
    | none => exact absurd h ((lookupKey_eq_none n m).mp hc)

/-- A successful `compileServiceAux` run produces a mapping whose keys
are exactly the declared function names (plus whatever was already
accumulated). -/
theorem compileServiceAux_ok_keys {fns : List ASTFunction} {seen : List (String × Nat)}
    {acc r : List (String × FunctionSpec)}
    (h : compileServiceAux fns seen acc = .ok r)
    (hsub : ∀ n, (lookupKey n acc).isSome = true → (lookupKey n seen).isSome = true) :
    ∀ n, (lookupKey n r).isSome = true ↔
      (n ∈ fns.map ASTFunction.Name ∨ (lookupKey n acc).isSome = true) := by
  induction fns generalizing seen acc with
  | nil =>
    obtain rfl := Except.ok.inj h
    intro n
    simp
  | cons f fns' ih =>
    simp only [compileServiceAux] at h
    cases hlk : lookupKey f.Name seen with
    | some l0 => rw [hlk] at h; cases h
    | none =>
      rw [hlk] at h
      cases hcf : (compileFunction f).mapError (CompileError.WrappedError f.Name) with
      | error e => rw [hcf] at h; cases h
      | ok fs =>
        rw [hcf] at h
        have haccf : lookupKey f.Name acc = none := by
          cases hc : lookupKey f.Name acc with
          | none => rfl
          | some v =>
            have hs := hsub f.Name (by rw [hc]; rfl)
            rw [hlk] at hs
            cases hs
        have hsub' : ∀ n, (lookupKey n (insertSorted f.Name fs acc)).isSome = true →
            (lookupKey n ((f.Name, f.Line) :: seen)).isSome = true := by
          intro n hn
          by_cases hne : n = f.Name
          · simp [lookupKey, hne]
          · rw [lookupKey_insertSorted_ne hne fs acc] at hn
            simp only [lookupKey, hne, if_neg hne]
            exact hsub n hn
        have key : ∀ n, (lookupKey n (insertSorted f.Name fs acc)).isSome = true ↔
            (n = f.Name ∨ (lookupKey n acc).isSome = true) := by
          intro n
          by_cases hne : n = f.Name
          · subst hne
            rw [lookupKey_insertSorted_self fs haccf]
            simp
          · rw [lookupKey_insertSorted_ne hne fs acc]
            simp [hne]
        intro n
        rw [ih h hsub' n, key n]
        simp only [List.map_cons, List.mem_cons]
        tauto

/-- Linking the functions mapping preserves its keys. -/
theorem linkFunctions_keys {sc : Scope} {fns fns' : List (String × FunctionSpec)}
    (h : linkFunctions sc fns = .ok fns') :
    fns'.map Prod.fst = fns.map Prod.fst := by
  induction fns generalizing fns' with
  | nil =>
    obtain rfl := Except.ok.inj h
    rfl
  | cons p rest ih =>
    obtain ⟨n, fspec⟩ := p
    simp only [linkFunctions] at h
    cases hf : fspec.link sc with
    | error e => rw [hf] at h; cases h
    | ok f' =>
      rw [hf] at h
      cases hr : linkFunctions sc rest with
      | error e => rw [hr] at h; cases h
      | ok rest' =>
        rw [hr] at h
        obtain rfl := Except.ok.inj h
        simp [ih hr]

/-- C6: after Compile and Link, the service's `Functions` mapping holds
exactly the functions declared in the service's own body — inherited
(parent) functions are never flattened into it. -/
theorem functions_not_flattened (src : ASTService) (sc : Scope) (sp s' : ServiceSpec)
    (hc : compileService src = .ok sp) (hl : sp.Link sc = .ok s') (n : String) :
    (lookupKey n s'.Functions).isSome = true ↔ n ∈ src.Functions.map ASTFunction.Name := by
  obtain ⟨hP, hLk, hA⟩ := compileService_ok hc
  have h1 : (lookupKey n sp.Functions).isSome = true ↔
      n ∈ src.Functions.map ASTFunction.Name := by
    have := compileServiceAux_ok_keys hA (fun m hm => by cases hm) n
    simpa [lookupKey] using this
  unfold ServiceSpec.Link at hl
  rw [if_neg (by rw [hLk]; exact Bool.false_ne_true)] at hl
  cases hp : linkParent sc sp.Parent with
  | error e => simp [hp] at hl
  | ok parent =>
    cases hf : linkFunctions sc sp.Functions with
    | error e => simp [hp, hf] at hl
    | ok fns' =>
      simp only [hp, hf] at hl
      obtain rfl := Except.ok.inj hl
      rw [lookupKey_isSome, linkFunctions_keys hf, ← lookupKey_isSome]
      exact h1

/-- C6 witness: the linked `BulkKeyValue extends KeyValue` holds only its
own `setValues`, not the parent's `setValue`. -/
theorem functions_not_flattened_witness :
    (lookupKey "setValues" bulkLinked.Functions).isSome = true ∧
    ¬ (lookupKey "setValue" bulkLinked.Functions).isSome = true :=
  ⟨(functions_not_flattened bulkSrc bulkScope bulkCompiled bulkLinked rfl rfl
      "setValues").mpr (by decide),
   fun h => absurd ((functions_not_flattened bulkSrc bulkScope bulkCompiled bulkLinked
      rfl rfl "setValue").mp h) (by decide)⟩

/-! ## Successful field groups: ids and name-keyed lookup -/

theorem lookupMk_eq_none (fields : List ASTField) (k : String) :
    ∀ pos0, k ∉ fields.map ASTField.Name → lookupMk fields pos0 k = none := by
  induction fields with
  | nil => intro pos0 _; rfl
  | cons f rest ih =>
    intro pos0 h
    simp only [List.map_cons, List.mem_cons] at h
    push_neg at h
    have hne : ¬(f.Name = k) := fun he => h.1 he.symm
    simp [lookupMk, hne, ih (pos0 + 1) h.2]

theorem lookupMk_get (fields : List ASTField) :
    (fields.map ASTField.Name).Nodup →
    ∀ (pos0 : Nat) (i : Fin fields.length),
      lookupMk fields pos0 (fields.get i).Name =
        some (mkFieldSpec (pos0 + i.1) (fields.get i)) := by
  induction fields with
  | nil => intro _ _ i; exact absurd i.2 (by simp)
  | cons f rest ih =>
    intro hnodup pos0 i
    cases i using Fin.cases with
    | zero => simp [lookupMk]
    | succ j =>
      have hmem : (rest.get j).Name ∈ rest.map ASTField.Name :=
        List.mem_map_of_mem ASTField.Name (rest.get_mem j.1 j.2)
      have hne : ¬(f.Name = (rest.get j).Name) := by
        intro he
        exact (List.nodup_cons.mp (by simpa using hnodup)).1 (he ▸ hmem)
      have hrec := ih (List.nodup_cons.mp (by simpa using hnodup)).2 (pos0 + 1) j
      have harith : pos0 + (Fin.succ j).1 = pos0 + 1 + j.1 := by
        simp only [Fin.val_succ]
        omega
      have hget : (f :: rest).get j.succ = rest.get j := rfl
      rw [hget, harith]
      simp only [lookupMk, if_neg hne, hrec]

/-- A run of `compileFieldsAux` over default-legal, name-fresh, id-fresh
fields succeeds, and looking up a name in the result finds the compiled
field at its declaration position (or falls back to the accumulator). -/
theorem compileFieldsAux_ok (isExc : Bool) (fields : List ASTField) (pos0 : Nat)
    (seenN : List (String × Nat)) (seenI : List Int) (acc : FieldGroup)
    (hdef : isExc = true → ∀ f ∈ fields, f.Default = none)
    (hnodup : (fields.map ASTField.Name).Nodup)
    (hseenN : ∀ f ∈ fields, lookupKey f.Name seenN = none)
    (hidsN : (effIDsFrom pos0 fields).Nodup)
    (hidsS : ∀ i ∈ effIDsFrom pos0 fields, i ∉ seenI)
    (haccN : ∀ f ∈ fields, lookupKey f.Name acc = none) :
    ∃ g, compileFieldsAux isExc fields pos0 seenN seenI acc = .ok g ∧
      ∀ k, lookupKey k g = orO (lookupMk fields pos0 k) (lookupKey k acc) := by
  induction fields generalizing pos0 seenN seenI acc with
  | nil => exact ⟨acc, rfl, fun k => rfl⟩
  | cons f rest ih =>
    have hd : ¬(isExc = true ∧ f.Default.isSome = true) := by
      rintro ⟨he, hs⟩
      rw [hdef he f (List.mem_cons_self f rest)] at hs
      cases hs
    have h1 : lookupKey f.Name seenN = none := hseenN f (List.mem_cons_self f rest)
    have h2 : effID pos0 f ∉ seenI := hidsS (effID pos0 f) (by simp [effIDsFrom])
    have hidsN' : (effIDsFrom (pos0 + 1) rest).Nodup := (List.nodup_cons.mp hidsN).2
    have hheadI : effID pos0 f ∉ effIDsFrom (pos0 + 1) rest := (List.nodup_cons.mp hidsN).1
    obtain ⟨g, hg, hlook⟩ := ih (pos0 + 1) ((f.Name, f.Line) :: seenN) (effID pos0 f :: seenI)
      (insertSorted f.Name (mkFieldSpec pos0 f) acc)
      (fun he q hq => hdef he q (List.mem_cons_of_mem f hq))
      (List.nodup_cons.mp hnodup).2
      (fun q hq => by
        have hne : q.Name ≠ f.Name := by
          intro he
          exact (List.nodup_cons.mp hnodup).1 (he ▸ List.mem_map_of_mem ASTField.Name hq)
        simp [lookupKey, hne, hseenN q (List.mem_cons_of_mem f hq)])
      hidsN'
      (fun i hi => by
        have hne : i ≠ effID pos0 f := fun he => hheadI (he ▸ hi)
        simp [hne, hidsS i (by simp [effIDsFrom]; exact Or.inr hi)])
      (fun q hq => by
        have hne : q.Name ≠ f.Name := by
          intro he
          exact (List.nodup_cons.mp hnodup).1 (he ▸ List.mem_map_of_mem ASTField.Name hq)
        rw [lookupKey_insertSorted_ne hne _ acc]
        exact haccN q (List.mem_cons_of_mem f hq))
    refine ⟨g, ?_, ?_⟩
    · rw [← hg]
      simp [compileFieldsAux, hd, h1, h2]
    · intro k
      rw [hlook k]
      by_cases hk : k = f.Name
      · subst hk
        rw [lookupMk_eq_none rest f.Name (pos0 + 1)
            (fun hm => (List.nodup_cons.mp hnodup).1 hm)]
        rw [lookupKey_insertSorted_self _ (haccN f (List.mem_cons_self f rest))]
        simp [orO, lookupMk]
      · have hne : ¬(f.Name = k) := fun he => hk he.symm
        rw [lookupKey_insertSorted_ne hk _ acc]
        simp [orO, lookupMk, hne]

/-- C8: a well-formed argument or throws list (unique names, unique
effective ids, defaults absent when it is an exception list) compiles
successfully, and the compiled field found under each declared name
carries exactly the declared numeric id (or, when the id was omitted,
the deterministically assigned one) — `mkFieldSpec` uses the explicit id
verbatim. -/
theorem compileFields_ids_verbatim (isExc : Bool) (fields : List ASTField)
    (hdef : isExc = true → ∀ f ∈ fields, f.Default = none)
    (hnodup : (fields.map ASTField.Name).Nodup)
    (hids : (effIDsFrom 0 fields).Nodup) :
    ∃ g, compileFields isExc fields = .ok g ∧
      ∀ i : Fin fields.length,
        lookupKey (fields.get i).Name g = some (mkFieldSpec i.1 (fields.get i)) ∧
        ∀ m, (fields.get i).ID = some m → (mkFieldSpec i.1 (fields.get i)).ID = m := by
  obtain ⟨g, hg, hlook⟩ := compileFieldsAux_ok isExc fields 0 [] [] [] hdef hnodup
    (fun f _ => rfl) hids (fun i _ => List.not_mem_nil i) (fun f _ => rfl)
  refine ⟨g, hg, fun i => ⟨?_, fun m hm => by
    simp only [mkFieldSpec, effID, hm, Option.getD_some]⟩⟩
  rw [hlook (fields.get i).Name, lookupMk_get fields hnodup 0 i]
  simp [orO]

/-- C8 witness: the argument list of `setValue(1: string key, 2: binary
value)` compiles with ids `1` and `2` used verbatim. -/
theorem compileFields_ids_verbatim_witness :
    ∃ g, compileFields false kvSetValueParams = .ok g ∧
      ∀ i : Fin kvSetValueParams.length,
        lookupKey (kvSetValueParams.get i).Name g =
          some (mkFieldSpec i.1 (kvSetValueParams.get i)) ∧
        ∀ m, (kvSetValueParams.get i).ID = some m →
          (mkFieldSpec i.1 (kvSetValueParams.get i)).ID = m :=
  compileFields_ids_verbatim false kvSetValueParams (fun h => nomatch h)
    (by decide) (by decide)

/-! ## C7: the `FieldGroup` is an unordered name-keyed map -/

/-- A successful field-group build is name-unique, and its keys are
exactly the declared field names. -/
theorem compileFieldsAux_ok_keys {isExc : Bool} {fields : List ASTField} {pos : Nat}
    {seenN : List (String × Nat)} {seenI : List Int} {acc g : FieldGroup}
    (h : compileFieldsAux isExc fields pos seenN seenI acc = .ok g)
    (haccK : (acc.map Prod.fst).Nodup)
    (hsub : ∀ k, (lookupKey k acc).isSome = true → (lookupKey k seenN).isSome = true) :
    (g.map Prod.fst).Nodup ∧
    ∀ k, (lookupKey k g).isSome = true ↔
      (k ∈ fields.map ASTField.Name ∨ (lookupKey k acc).isSome = true) := by
  induction fields generalizing pos seenN seenI acc with
  | nil =>
    obtain rfl := Except.ok.inj h
    exact ⟨haccK, fun k => by simp⟩
  | cons f rest ih =>
    simp only [compileFieldsAux] at h
    by_cases hd : isExc = true ∧ f.Default.isSome = true
    · rw [if_pos hd] at h; cases h
    · rw [if_neg hd] at h
      cases hlk : lookupKey f.Name seenN with
      | some l0 => rw [hlk] at h; cases h
      | none =>
        rw [hlk] at h
        by_cases hid : effID pos f ∈ seenI
        · rw [if_pos hid] at h; cases h
        · rw [if_neg hid] at h
          have haccf : lookupKey f.Name acc = none := by
            cases hc : lookupKey f.Name acc with
            | none => rfl
            | some v =>
              have hs := hsub f.Name (by rw [hc]; rfl)
              rw [hlk] at hs
              cases hs
          have haccK' : ((insertSorted f.Name (mkFieldSpec pos f) acc).map Prod.fst).Nodup :=
            nodup_keys_insertSorted _ haccf haccK
          have hsub' : ∀ k,
              (lookupKey k (insertSorted f.Name (mkFieldSpec pos f) acc)).isSome = true →
              (lookupKey k ((f.Name, f.Line) :: seenN)).isSome = true := by
            intro k hk
            by_cases hne : k = f.Name
            · simp [lookupKey, hne]
            · rw [lookupKey_insertSorted_ne hne _ acc] at hk
              simp only [lookupKey, if_neg hne]
              exact hsub k hk
          obtain ⟨hN, hK⟩ := ih h haccK' hsub'
          refine ⟨hN, fun k => ?_⟩
          rw [hK k]
          have key : (lookupKey k (insertSorted f.Name (mkFieldSpec pos f) acc)).isSome = true ↔
              (k = f.Name ∨ (lookupKey k acc).isSome = true) := by
            by_cases hne : k = f.Name
            · subst hne
              rw [lookupKey_insertSorted_self _ haccf]
              simp
            · rw [lookupKey_insertSorted_ne hne _ acc]
              simp [hne]
          rw [key]
          simp only [List.map_cons, List.mem_cons]
          tauto

/-- C7 (amended): every `FieldGroup` produced by Compile is a
name-unique, name-keyed mapping whose keys are exactly the declared
field names; declaration order is processed for duplicate detection but
is not retained in the group itself. -/
theorem fieldGroup_name_unique_unordered (isExc : Bool) (fields : List ASTField)
    (g : FieldGroup) (h : compileFields isExc fields = .ok g) :
    (g.map Prod.fst).Nodup ∧
    ∀ k, (lookupKey k g).isSome = true ↔ k ∈ fields.map ASTField.Name := by
  obtain ⟨hN, hK⟩ := compileFieldsAux_ok_keys h List.nodup_nil (fun k hk => by cases hk)
  exact ⟨hN, fun k => by simpa [lookupKey] using hK k⟩

/-- C7 witness: the group compiled from `1: string a, 2: binary b` is
name-unique and holds the declared names. -/
theorem fieldGroup_name_unique_unordered_witness :
    (groupAB.map Prod.fst).Nodup ∧ (lookupKey "a" groupAB).isSome = true :=
  ⟨(fieldGroup_name_unique_unordered false [fldA, fldB] groupAB rfl).1,
   ((fieldGroup_name_unique_unordered false [fldA, fldB] groupAB rfl).2 "a").mpr (by decide)⟩

/-- C7 counterexample: two argument lists declaring the same fields in
different orders compile to the *same* `FieldGroup` — the declaration
order is not recoverable from the compiled group, refuting the claim
that the order is preserved. -/
theorem fieldGroup_order_not_recoverable :
    [fldA, fldB] ≠ [fldB, fldA] ∧
    compileFields false [fldA, fldB] = .ok groupAB ∧
    compileFields false [fldB, fldA] = .ok groupAB :=
  ⟨by decide, rfl, rfl⟩

/-! ## C9: determinism — the pipeline depends on the scope only through
name lookup -/

theorem typeSpec_link_congr {sc1 sc2 : Scope}
    (hsc : ∀ n, lookupKey n sc1 = lookupKey n sc2) :
    ∀ t : TypeSpec, t.link sc1 = t.link sc2 := by
  intro t
  induction t with
  | MapSpec k v ihk ihv => simp only [TypeSpec.link, ihk, ihv]
  | ListSpec v ihv => simp only [TypeSpec.link, ihv]
  | SetSpec v ihv => simp only [TypeSpec.link, ihv]
  | DefRef r =>
    cases r with
    | Unresolved n => simp only [TypeSpec.link, hsc n]
    | Resolved h => rfl
  | BoolSpec => rfl
  | I8Spec => rfl
  | I16Spec => rfl
  | I32Spec => rfl
  | I64Spec => rfl
  | DoubleSpec => rfl
  | StringSpec => rfl
  | BinarySpec => rfl

theorem linkFieldGroup_congr {sc1 sc2 : Scope}
    (hsc : ∀ n, lookupKey n sc1 = lookupKey n sc2) :
    ∀ g : FieldGroup, linkFieldGroup sc1 g = linkFieldGroup sc2 g := by
  intro g
  induction g with
  | nil => rfl
  | cons p rest ih =>
    obtain ⟨n, fs⟩ := p
    simp only [linkFieldGroup, typeSpec_link_congr hsc fs.Typ, ih]

theorem resultSpec_link_congr {sc1 sc2 : Scope}
    (hsc : ∀ n, lookupKey n sc1 = lookupKey n sc2) (r : ResultSpec) :
    r.link sc1 = r.link sc2 := by
  unfold ResultSpec.link
  cases r.ReturnType with
  | none => rw [linkFieldGroup_congr hsc r.Exceptions]
  | some t =>
    dsimp only
    rw [typeSpec_link_congr hsc t, linkFieldGroup_congr hsc r.Exceptions]

theorem functionSpec_link_congr {sc1 sc2 : Scope}
    (hsc : ∀ n, lookupKey n sc1 = lookupKey n sc2) (f : FunctionSpec) :
    f.link sc1 = f.link sc2 := by
  unfold FunctionSpec.link
  rw [linkFieldGroup_congr hsc f.ArgsSpec]
  cases f.Result with
  | none => rfl
  | some r =>
    dsimp only
    rw [resultSpec_link_congr hsc r]

theorem linkFunctions_congr {sc1 sc2 : Scope}
    (hsc : ∀ n, lookupKey n sc1 = lookupKey n sc2) :
    ∀ fns : List (String × FunctionSpec), linkFunctions sc1 fns = linkFunctions sc2 fns := by
  intro fns
  induction fns with
  | nil => rfl
  | cons p rest ih =>
    obtain ⟨n, f⟩ := p
    simp only [linkFunctions, functionSpec_link_congr hsc f, ih]

theorem linkParent_congr {sc1 sc2 : Scope}
    (hsc : ∀ n, lookupKey n sc1 = lookupKey n sc2) :
    ∀ p : Option SpecRef, linkParent sc1 p = linkParent sc2 p := by
  intro p
  match p with
  | none => rfl
  | some (.Resolved h) => rfl
  | some (.Unresolved n) => simp only [linkParent, hsc n]

theorem serviceSpec_Link_congr {sc1 sc2 : Scope}
    (hsc : ∀ n, lookupKey n sc1 = lookupKey n sc2) (s : ServiceSpec) :
    s.Link sc1 = s.Link sc2 := by
  unfold ServiceSpec.Link
  rw [linkParent_congr hsc s.Parent, linkFunctions_congr hsc s.Functions]

/-- C9: compiling the same source twice and linking against extensionally
equal scopes yields structurally equal results — compilation is a pure
function of the source, and linking consults the scope only through name
lookup. -/
theorem compile_link_deterministic (src : ASTService) (sc1 sc2 : Scope)
    (hsc : ∀ n, lookupKey n sc1 = lookupKey n sc2) :
    compileAndLink src sc1 = compileAndLink src sc2 := by
  unfold compileAndLink
  cases compileService src with
  | error e => rfl
  | ok sp =>
    dsimp only
    rw [serviceSpec_Link_congr hsc sp]

/-- C9 witness: compiling `BulkKeyValue` twice and linking against the
same scope written in two different entry orders gives equal Specs. -/
theorem compile_link_deterministic_witness :
    compileAndLink bulkSrc bulkScopeA = compileAndLink bulkSrc bulkScopeB :=
  compile_link_deterministic bulkSrc bulkScopeA bulkScopeB (by
    intro n
    by_cases h1 : n = "KeyValue"
    · simp [bulkScopeA, bulkScopeB, lookupKey, h1]
    · by_cases h2 : n = "KeyDoesNotExist" <;>
        simp [bulkScopeA, bulkScopeB, lookupKey, h1, h2])

/-! ## C10: the typedef reader generator is memoized -/

/-- C10: `typedefGenerator.Reader` always returns the name
`"_" ++ goCase(spec.ThriftName()) ++ "_Read"`; when a reader with that
name has already been declared it returns it with a nil error and no
state change; and a repeated call for the same spec is a no-op returning
the same name and nil error. -/
theorem Gen.Reader_memoized (goCase : String → String) (st : Gen.GenState) (tn : String) :
    (Gen.Reader goCase st tn).2.1 = "_" ++ goCase tn ++ "_Read" ∧
    (Gen.HasReader st ("_" ++ goCase tn ++ "_Read") = true →
      Gen.Reader goCase st tn = (st, "_" ++ goCase tn ++ "_Read", none)) ∧
    Gen.Reader goCase (Gen.Reader goCase st tn).1 tn =
      ((Gen.Reader goCase st tn).1, "_" ++ goCase tn ++ "_Read", none) := by
  refine ⟨?_, fun h => by simp [Gen.Reader, h], ?_⟩
  · by_cases hr : Gen.HasReader st ("_" ++ goCase tn ++ "_Read") = true <;>
      simp [Gen.Reader, hr]
  · by_cases hr : Gen.HasReader st ("_" ++ goCase tn ++ "_Read") = true
    · simp [Gen.Reader, hr]
    · have h2 : Gen.HasReader
          { readers := ("_" ++ goCase tn ++ "_Read") :: st.readers,
            decls := ("_" ++ goCase tn ++ "_Read") :: st.decls }
          ("_" ++ goCase tn ++ "_Read") = true := by
        simp [Gen.HasReader]
      simp [Gen.Reader, Gen.DeclareFromTemplate, Gen.wrapGenerateError, hr, h2]

/-- C10 witness: on a generator state already holding `_X_Read`, `Reader`
returns the same name with no error and no new declaration. -/
theorem Gen.Reader_memoized_witness :
    Gen.Reader (fun s => s) ⟨["_X_Read"], ["_X_Read"]⟩ "X" =
      (⟨["_X_Read"], ["_X_Read"]⟩, "_X_Read", none) :=
  (Gen.Reader_memoized (fun s => s) ⟨["_X_Read"], ["_X_Read"]⟩ "X").2.1 (by decide)

end ThriftRW
